import Mathlib

/-!
Verification development for the octave-ndjson loader.

The C++ sources under `src/source/` are embedded shallowly:

* `schema.hpp` : `Schema` token sequences (`Part`), `Schema::is_same`,
  `Schema::root_is_object`.
* `ndjson_load.cpp` : `build_schema`, the sequential `load` and the
  multi-threaded `load_multi` (the external simdjson parser is abstracted:
  inputs arrive as already-parsed `Json` documents, one per document/line;
  the Octave host value model is embedded as `Oct`).
* `parse_octave_value.hpp` : the DOM decoder family `decode`,
  `decode_array`, `decode_numeric_array`, `decode_object_array`, ...
* `parse_json_value.hpp` : the ondemand decoder `parse_json_value`.
* `multithreaded_parser.hpp` : the round-robin pool (`poolParse`,
  `poolDrain`); the wake-flag protocol guarantees a slot's outcome is
  published before the slot is read again, so the pool is modelled by its
  synchronous slot semantics.
* `util.hpp` : `StringSplitter::next` with an explicit trace of the string
  indices its delimiter-skipping loop reads.

Machine doubles are modelled as `Option ℚ` (`none` is the NaN family);
the host's int64/uint64-to-double conversion is modelled by IEEE-754
round-to-nearest-even on integers (`doubleOfInt`).
-/

namespace octave_ndjson

/-! ## Schema data model (`schema.hpp`) -/

/-- `Schema::Scalar` : the four scalar kinds. -/
inductive SKind where
  | number
  | string
  | bool
  | null
deriving DecidableEq, Repr

/-- `Schema::Part` = `std::variant<Scalar, Object, Array, Key>`. -/
inductive Part where
  | scalar (k : SKind)
  | objectBegin
  | objectEnd
  | arrayBegin
  | arrayEnd
  | key (name : String)
deriving DecidableEq, Repr

/-- `Schema::root_is_object` : empty schema answers `false`, otherwise the
first part must be an `Object` alternative (`Object::Begin` or `End`;
only `Begin` can start a built schema). -/
def root_is_object (parts : List Part) : Bool :=
  match parts with
  | [] => false
  | Part.objectBegin :: _ => true
  | Part.objectEnd :: _ => true
  | _ => false

/-- The `(obj_count, arr_count)` bookkeeping of the skip loops inside
`Schema::is_same`: contribution of one examined part. -/
def partDelta (p : Part) : Int × Int :=
  match p with
  | Part.objectBegin => (1, 0)
  | Part.objectEnd => (-1, 0)
  | Part.arrayBegin => (0, 1)
  | Part.arrayEnd => (0, -1)
  | _ => (0, 0)

/-- The `do { ++i; ... } while ((obj_count > 0 or arr_count > 0) and i != end)`
skip loop of `Schema::is_same` (dynamic-array branch).  The cursor is the
suffix of the part list starting at the current position; the loop leaves the
cursor on the part at which both counters have dropped, normally the matching
`Array::End`.  (When the cursor reaches the end of an unbalanced sequence the
C++ dereferences the end iterator; built schemas are balanced and never reach
that case, which the model makes benign.) -/
def skipLoop : List Part → Int → Int → List Part
  | [], _, _ => []
  | _ :: s, oc, ac =>
    let d := match s with
      | [] => ((0 : Int), (0 : Int))
      | p :: _ => partDelta p
    let oc' := oc + d.1
    let ac' := ac + d.2
    if (0 < oc' || 0 < ac') && !s.isEmpty then skipLoop s oc' ac' else s

/-- The dynamic-array branch of `Schema::is_same`: two cursors walk both
sequences in lock-step; a cursor standing on `Array::Begin` first skips to the
matching `Array::End`; then both cursors advance one step.  Both must reach
the end simultaneously. -/
def isSameDyn : List Part → List Part → Bool
  | [], [] => true
  | [], _ :: _ => false
  | _ :: _, [] => false
  | x :: xs, y :: ys =>
    if x ≠ y then false
    else
      let i1 := if x = Part.arrayBegin then (skipLoop (x :: xs) 0 1).tail else xs
      let j1 := if y = Part.arrayBegin then (skipLoop (y :: ys) 0 1).tail else ys
      isSameDyn i1 j1
termination_by a _ => a.length
decreasing_by
  have hlen : ∀ (s : List Part) (oc ac : Int), (skipLoop s oc ac).length ≤ s.length - 1 := by
    intro s
    induction s with
    | nil => intro _ _; simp [skipLoop]
    | cons z s ih =>
      intro oc ac
      simp only [skipLoop, List.length_cons]
      split
      · exact le_trans (ih _ _) (by omega)
      · omega
  split
  · have h := hlen (x :: xs) 0 1
    have h2 : (skipLoop (x :: xs) 0 1).tail.length = (skipLoop (x :: xs) 0 1).length - 1 :=
      List.length_tail _
    simp only [List.length_cons] at h ⊢
    omega
  · simp

/-- `Schema::is_same(other, dynamic_array)`.  The strict branch compares the
sizes and then the parts pairwise, i.e. decides list equality. -/
def is_same (a b : List Part) (dynamic_array : Bool) : Bool :=
  if !dynamic_array then decide (a = b)
  else isSameDyn a b

/-! ## JSON documents

The external simdjson tokenizer is out of scope (spec §1); documents reach
the loader as parsed DOM values.  `Json` mirrors `simdjson::dom::element`
with its three numeric element types. -/

/-- A machine double: `some q` is the finite value `q`, `none` stands for the
NaN family (including Octave's NaN sentinel). -/
abbrev MDouble := Option ℚ

inductive Json where
  | int64 (v : Int)
  | uint64 (v : Nat)
  | double (v : ℚ)
  | str (s : String)
  | bool (b : Bool)
  | null
  | arr (elems : List Json)
  | obj (fields : List (String × Json))

/-- `simdjson::dom::element_type`. -/
inductive JType where
  | INT64
  | UINT64
  | DOUBLE
  | STRING
  | BOOL
  | NULL_VALUE
  | ARRAY
  | OBJECT
deriving DecidableEq, BEq, Repr

def Json.jtype : Json → JType
  | .int64 _ => .INT64
  | .uint64 _ => .UINT64
  | .double _ => .DOUBLE
  | .str _ => .STRING
  | .bool _ => .BOOL
  | .null => .NULL_VALUE
  | .arr _ => .ARRAY
  | .obj _ => .OBJECT

/-- `element::is_number()`: INT64, UINT64 or DOUBLE. -/
def Json.is_number (j : Json) : Bool :=
  match j with
  | .int64 _ => true
  | .uint64 _ => true
  | .double _ => true
  | _ => false

def Json.is_null (j : Json) : Bool :=
  match j with
  | .null => true
  | _ => false

/-- `element::get_bool().value()`; errors on non-bool elements, which the
callers' `same_type` guard makes unreachable. -/
def Json.getBool (j : Json) : Bool :=
  match j with
  | .bool b => b
  | _ => false

/-! ## Integer-to-double conversion (host collaborator)

`decode` hands `int64_t`/`uint64_t` payloads to `octave_value`'s integer
constructors, which store them as IEEE-754 binary64 doubles.  For a
nonnegative integer that conversion is round-to-nearest-even at 53
significand bits, modelled exactly by `roundNat53`. -/

def roundNat53 (n : Nat) : Nat :=
  if n ≤ 2 ^ 53 then n
  else
    let e := Nat.log2 n
    let ulp := 2 ^ (e - 52)
    let q := n / ulp
    let r := n % ulp
    if 2 * r < ulp then q * ulp
    else if ulp < 2 * r then (q + 1) * ulp
    else if q % 2 = 0 then q * ulp else (q + 1) * ulp

def doubleOfInt (v : Int) : MDouble :=
  if 0 ≤ v then some ((roundNat53 v.toNat : Nat) : ℚ)
  else some (-((roundNat53 (-v).toNat : Nat) : ℚ))

def doubleOfNat (v : Nat) : MDouble :=
  some ((roundNat53 v : Nat) : ℚ)

/-! ## The host value model (`octave_value`)

Constructors cover exactly the shapes the decoders build, plus
`intScalar` — Octave's integer-typed scalars (`octave_int64` &c.) exist in
the host model but are never produced by this code — plus `undefined`
(a default-constructed `octave_value`) and `errorValue`, which marks paths
on which the C++ raises `error()` or is undefined behavior. -/

inductive Oct where
  | numScalar (v : MDouble)
  | naScalar
  | intScalar (v : Int)
  | boolScalar (b : Bool)
  | strScalar (s : String)
  | numArray (dims : List Nat) (data : List MDouble)
  | boolArray (dims : List Nat) (data : List Bool)
  | cellArray (data : List Oct)
  | record (fields : List (String × Oct))
  | recordArray (dims : List Nat) (fields : List (String × List Oct))
  | undefined
  | errorValue

/-- `octave_value::isnumeric()`: double/int scalars and NDArrays; Octave
logicals and char arrays are *not* numeric. -/
def Oct.isnumeric : Oct → Bool
  | .numScalar _ => true
  | .naScalar => true
  | .intScalar _ => true
  | .numArray _ _ => true
  | _ => false

/-- `octave_value::is_scalar_type()`. -/
def Oct.is_scalar_type : Oct → Bool
  | .numScalar _ => true
  | .naScalar => true
  | .intScalar _ => true
  | .boolScalar _ => true
  | _ => false

def Oct.iscell : Oct → Bool
  | .cellArray _ => true
  | _ => false

def Oct.isstruct : Oct → Bool
  | .record _ => true
  | .recordArray _ _ => true
  | _ => false

def Oct.is_bool_matrix : Oct → Bool
  | .boolArray _ _ => true
  | _ => false

/-- `octave_value::dims()`.  Scalars are 1x1, strings are 1xN char rows,
cells built by this code are Nx1 columns. -/
def Oct.dims : Oct → List Nat
  | .numScalar _ => [1, 1]
  | .naScalar => [1, 1]
  | .intScalar _ => [1, 1]
  | .boolScalar _ => [1, 1]
  | .strScalar s => [1, s.length]
  | .numArray d _ => d
  | .boolArray d _ => d
  | .cellArray cs => [cs.length, 1]
  | .record _ => [1, 1]
  | .recordArray d _ => d
  | .undefined => []
  | .errorValue => []

/-- `octave_value::double_value()` on the scalar shapes the callers guard
for; on the remaining shapes Octave raises a wrong-type error (unreachable
here), modelled as NaN. -/
def Oct.double_value : Oct → MDouble
  | .numScalar v => v
  | .naScalar => none
  | .intScalar v => some (v : ℚ)
  | .boolScalar b => some (if b then 1 else 0)
  | _ => none

/-- `octave_value::array_value()` flat data of a numeric or boolean NDArray
(the only shapes reaching it in `decode_array_of_arrays`). -/
def Oct.array_data : Oct → List MDouble
  | .numArray _ d => d
  | .boolArray _ d => d.map fun b => some (if b then 1 else 0)
  | _ => []

/-- `scalar_map_value().fieldnames()`: the keys of a scalar struct, in
insertion order; non-structs raise an error (unreachable under the callers'
type guards). -/
def Oct.fieldnames : Oct → List String
  | .record fs => fs.map (·.1)
  | _ => []

/-- `map_value().fieldnames()`: also accepts struct arrays. -/
def Oct.map_fieldnames : Oct → List String
  | .record fs => fs.map (·.1)
  | .recordArray _ fs => fs.map (·.1)
  | _ => []

/-- `octave_scalar_map::getfield` on a decoded record: the stored value, or
a default-constructed `octave_value` when the key is absent. -/
def getfieldD (fs : List (String × Oct)) (k : String) : Oct :=
  (fs.lookup k).getD .undefined

/-- `scalar_map_value().getfield(k)`: errors on non-structs (unreachable
under the callers' guards). -/
def Oct.scalar_map_getfield : Oct → String → Oct
  | .record fs, k => getfieldD fs k
  | _, _ => .errorValue

/-- `map_value().getfield(k)`: the Cell column of field `k` of a struct
array. -/
def Oct.getfieldCol : Oct → String → List Oct
  | .record fs, k => [getfieldD fs k]
  | .recordArray _ fs, k => (fs.lookup k).getD []
  | _, _ => []

/-- `octave_scalar_map::assign`/`setfield`: overwrite an existing key in
place, otherwise append. -/
def assignField : List (String × Oct) → String → Oct → List (String × Oct)
  | [], k, v => [(k, v)]
  | (k0, v0) :: rest, k, v =>
    if k0 = k then (k0, v) :: rest else (k0, v0) :: assignField rest k v

/-- `dim_vector{}` (and the dims of `NDArray{}`): 0x0. -/
def dimVectorDefault : List Nat := [0, 0]

def prodDims (l : List Nat) : Nat := l.foldl (· * ·) 1

/-- `dim_vector::chop_trailing_singletons()`: drop trailing 1-extents while
more than two dimensions remain. -/
def chopTrailingSingletons (l : List Nat) : List Nat :=
  if 2 < l.length ∧ l.getLast? = some 1 then chopTrailingSingletons l.dropLast else l
termination_by l.length
decreasing_by
  rename_i h
  have : l ≠ [] := by
    intro hnil
    simp [hnil] at h
  simp [List.length_dropLast]
  omega

/-! ## The DOM decoder (`parse_octave_value.hpp`) -/

/-- `detail_parse::decode_string`: the transient string is copied into an
owned buffer; semantically the identity on the characters. -/
def decode_string (s : String) : Oct := .strScalar s

/-- `detail_parse::decode_boolean_array`. -/
def decode_boolean_array (a : List Json) : Oct :=
  .boolArray [a.length, 1] (a.map Json.getBool)

mutual

/-- `detail_parse::decode` (= `parse_octave_value`): `octave_value`'s
integer constructors store doubles, so INT64/UINT64 go through the rounding
conversion; NULL_VALUE becomes `NDArray{}`. -/
def decode : Json → Oct
  | .arr a => decode_array a
  | .obj o => decode_object o
  | .int64 v => .numScalar (doubleOfInt v)
  | .uint64 v => .numScalar (doubleOfNat v)
  | .double v => .numScalar (some v)
  | .str s => decode_string s
  | .bool b => .boolScalar b
  | .null => .numArray dimVectorDefault []
termination_by j => (sizeOf j, 0)

/-- `detail_parse::decode_array`: the dispatch over element homogeneity. -/
def decode_array (a : List Json) : Oct :=
  if a.isEmpty then .numArray dimVectorDefault []
  else
    let last_type := (a.headD .null).jtype
    let is_numeric := a.all fun e => e.is_number || e.is_null
    let same_type := a.all fun e => decide (e.jtype = last_type)
    if is_numeric then decode_numeric_array a
    else if !same_type || decide (last_type = JType.STRING) then decode_string_and_mixed_array a
    else if decide (last_type = JType.BOOL) then decode_boolean_array a
    else if decide (last_type = JType.OBJECT) then decode_object_array a
    else if decide (last_type = JType.ARRAY) then decode_array_of_arrays a
    else .errorValue
termination_by (sizeOf a, 3)

/-- `detail_parse::decode_numeric_array`: null elements become the NaN
sentinel, the rest go through `decode(...).double_value()`. -/
def decode_numeric_array (a : List Json) : Oct :=
  .numArray [a.length, 1] (decodeNumericElems a)
termination_by (sizeOf a, 2)

def decodeNumericElems : List Json → List MDouble
  | [] => []
  | e :: rest =>
    (if e.is_null then none else (decode e).double_value) :: decodeNumericElems rest
termination_by l => (sizeOf l, 1)

/-- `detail_parse::decode_string_and_mixed_array`: an Nx1 Cell of the
elementwise decodes, order preserved. -/
def decode_string_and_mixed_array (a : List Json) : Oct :=
  .cellArray (decodeElems a)
termination_by (sizeOf a, 2)

def decodeElems : List Json → List Oct
  | [] => []
  | e :: rest => decode e :: decodeElems rest
termination_by l => (sizeOf l, 1)

/-- `detail_parse::decode_object`: a scalar map assigned field by field in
document order (duplicate keys overwrite in place). -/
def decode_object (o : List (String × Json)) : Oct :=
  .record (decodeObjectFields o [])
termination_by (sizeOf o, 2)

def decodeObjectFields : List (String × Json) → List (String × Oct) → List (String × Oct)
  | [], acc => acc
  | (k, v) :: rest, acc => decodeObjectFields rest (assignField acc k (decode v))
termination_by o _ => (sizeOf o, 1)

/-- `detail_parse::decode_object_array`: the per-element field-name *lists*
(`string_vector::std_list`, insertion order) must be equal for the
record-array consolidation; otherwise the Cell of records is returned. -/
def decode_object_array (a : List Json) : Oct :=
  match decodeElems a with
  | [] => .errorValue
  | c0 :: cs =>
    let struct_cell := c0 :: cs
    let field_names := c0.fieldnames
    let same_field_names := cs.all fun c => decide (c.fieldnames = field_names)
    if !same_field_names then .cellArray struct_cell
    else
      .recordArray [struct_cell.length, 1]
        (field_names.map fun fn =>
          (fn, struct_cell.map fun c => c.scalar_map_getfield fn))
termination_by (sizeOf a, 2)

/-- `detail_parse::decode_array_of_arrays`: uniform sub-arrays consolidate
into one higher-dimensional container with the outer index varying slowest
(output position `k + i * cell_numel`); any non-uniformity falls back to the
Cell. -/
def decode_array_of_arrays (a : List Json) : Oct :=
  match decodeElems a with
  | [] => .errorValue
  | c0 :: cs =>
    let cell := c0 :: cs
    let is_bool := c0.is_bool_matrix
    let is_struct := c0.isstruct
    let subarray_dims := c0.dims
    let cell_numel := cell.length
    let field_names := if is_struct then c0.map_fieldnames else []
    if cell.any (fun c => c.iscell)
        || cell.any (fun c => !decide (c.dims = subarray_dims))
        || decide (subarray_dims = dimVectorDefault)
        || cell.any (fun c => !decide (c.is_bool_matrix = is_bool))
        || cell.any (fun c => !decide (c.isstruct = is_struct))
        || (is_struct && cell.any fun c => !decide (c.map_fieldnames = field_names))
    then .cellArray cell
    else
      let array_dims := cell_numel :: subarray_dims
      if is_struct then
        let array_dims2 := chopTrailingSingletons array_dims
        let subarray_numel := prodDims subarray_dims
        .recordArray array_dims2 (field_names.map fun fn =>
          (fn, (List.range (cell_numel * subarray_numel)).map fun idx =>
            ((cell.getD (idx % cell_numel) .errorValue).getfieldCol fn).getD
              (idx / cell_numel) .undefined))
      else
        let subarray_numel := prodDims array_dims / cell_numel
        let data := (List.range (cell_numel * subarray_numel)).map fun idx =>
          ((cell.getD (idx % cell_numel) .errorValue).array_data).getD (idx / cell_numel) none
        if is_bool then .boolArray array_dims (data.map fun d => !(decide (d = some 0)))
        else .numArray array_dims data
termination_by (sizeOf a, 2)

end

/-! ## Schema building (`ndjson_load.cpp` `detail::build_schema`) -/

mutual

/-- `detail::build_schema`: recursive descent pushing parts in document
order; the out-parameter push becomes list concatenation.  All three
numeric element types push `Scalar::Number`. -/
def build_schema : Json → List Part
  | .arr a => Part.arrayBegin :: buildSchemaList a ++ [Part.arrayEnd]
  | .obj o => Part.objectBegin :: buildSchemaFields o ++ [Part.objectEnd]
  | .int64 _ => [Part.scalar .number]
  | .uint64 _ => [Part.scalar .number]
  | .double _ => [Part.scalar .number]
  | .str _ => [Part.scalar .string]
  | .bool _ => [Part.scalar .bool]
  | .null => [Part.scalar .null]

def buildSchemaList : List Json → List Part
  | [] => []
  | e :: rest => build_schema e ++ buildSchemaList rest

def buildSchemaFields : List (String × Json) → List Part
  | [] => []
  | (k, v) :: rest => Part.key k :: (build_schema v ++ buildSchemaFields rest)

end

/-! ## The ondemand decoder (`parse_json_value.hpp`) -/

mutual

/-- `parse_json_value`: the ondemand-API decoder used by the worker pool;
decodes and pushes schema parts in one pass.  Every JSON number goes
through `get_double()`; null yields `lo_ieee_na_value()`, Octave's NA
missing marker; an all-number array becomes a 1xN dense row. -/
def parse_json_value : Json → List Part → Oct × List Part
  | .arr a, schema =>
    let schema := schema ++ [Part.arrayBegin]
    let (vals, schema) := parseJsonElems a schema
    let schema := schema ++ [Part.arrayEnd]
    let all_number := vals.all fun p => p.isnumeric && p.is_scalar_type
    if all_number then (.numArray [1, vals.length] (vals.map Oct.double_value), schema)
    else (.cellArray vals, schema)
  | .obj o, schema =>
    let schema := schema ++ [Part.objectBegin]
    let (fields, schema) := parseJsonFields o schema []
    (.record fields, schema ++ [Part.objectEnd])
  | .str s, schema => (.strScalar s, schema ++ [Part.scalar .string])
  | .int64 v, schema => (.numScalar (doubleOfInt v), schema ++ [Part.scalar .number])
  | .uint64 v, schema => (.numScalar (doubleOfNat v), schema ++ [Part.scalar .number])
  | .double v, schema => (.numScalar (some v), schema ++ [Part.scalar .number])
  | .bool b, schema => (.boolScalar b, schema ++ [Part.scalar .bool])
  | .null, schema => (.naScalar, schema ++ [Part.scalar .null])

def parseJsonElems : List Json → List Part → List Oct × List Part
  | [], schema => ([], schema)
  | e :: rest, schema =>
    let (v, schema) := parse_json_value e schema
    let (vs, schema) := parseJsonElems rest schema
    (v :: vs, schema)

def parseJsonFields : List (String × Json) → List Part → List (String × Oct) →
    List (String × Oct) × List Part
  | [], schema, acc => (acc, schema)
  | (k, v) :: rest, schema, acc =>
    let schema := schema ++ [Part.key k]
    let (pv, schema) := parse_json_value v schema
    parseJsonFields rest schema (assignField acc k pv)

end

/-! ## The load orchestrators (`ndjson_load.cpp`)

The external simdjson parsers are abstracted: `load` receives the document
stream and `load_multi` the newline-split lines as parsed `Json` values,
so the syntax-error abort paths stay outside the model.  Message rendering
(schema diff, excerpt) is delegated to external collaborators; the model
keeps the structured message content, in particular the document number
embedded in a schema-mismatch message. -/

/-- `ParseMode` (ndjson_load.hpp). -/
inductive ParseMode where
  | Strict
  | DynamicArray
  | Relaxed
deriving DecidableEq, Repr

inductive LoadError where
  | schemaMismatch (ref cur : List Part) (docNumber : Nat)
  | wrongTypeArg
  | engineUB
deriving Repr

/-- `octave_value::scalar_map_value()`: only scalar structs convert here
(1-element struct arrays would too, but no caller reaches one). -/
def Oct.scalar_map_value : Oct → Except LoadError Oct
  | .record fs => .ok (.record fs)
  | _ => .error .wrongTypeArg

/-- `octave_value::array_value()`: numeric values pass through, logicals
and char rows convert elementwise; cells and structs raise a wrong-type
error. -/
def Oct.array_value : Oct → Except LoadError Oct
  | .numScalar v => .ok (.numArray [1, 1] [v])
  | .naScalar => .ok (.numArray [1, 1] [none])
  | .intScalar v => .ok (.numArray [1, 1] [some (v : ℚ)])
  | .boolScalar b => .ok (.numArray [1, 1] [some (if b then 1 else 0)])
  | .strScalar s => .ok (.numArray [1, s.length] (s.data.map fun c => some ((c.toNat : ℚ))))
  | .numArray dims data => .ok (.numArray dims data)
  | .boolArray dims data => .ok (.numArray dims (data.map fun b => some (if b then 1 else 0)))
  | _ => .error .wrongTypeArg

/-- `octave_value::cell_value()`: only genuine cells convert; every other
type raises "wrong type argument" (`octave_base_value::cell_value`). -/
def Oct.cell_value : Oct → Except LoadError Oct
  | .cellArray cs => .ok (.cellArray cs)
  | _ => .error .wrongTypeArg

/-- The document loop of `load`: decode, fingerprint, compare against the
first document's schema under the selected mode.  On a mismatch the thrown
message carries `docs.size()` — the number of documents already accepted —
as the document number. -/
def loadLoop (mode : ParseMode) :
    List Json → Option (List Part) → List Oct → Except LoadError (List Oct × Option (List Part))
  | [], refS, docs => .ok (docs, refS)
  | d :: rest, refS, docs =>
    let parsed := decode d
    if mode = ParseMode.Relaxed then loadLoop mode rest refS (docs ++ [parsed])
    else
      let schema := build_schema d
      let refS := refS.getD schema
      if is_same refS schema (decide (mode = ParseMode.DynamicArray)) then
        loadLoop mode rest (some refS) (docs ++ [parsed])
      else
        .error (.schemaMismatch refS schema docs.length)

/-- The `docs.size() == 1` unwrap of `load`:
`reference_schema->root_is_object()` dereferences the `std::optional`
unconditionally, and under Relaxed mode it was never engaged — undefined
behavior in the C++, flagged as `engineUB`. -/
def unwrapSingleDoc (refS : Option (List Part)) (v : Oct) : Except LoadError Oct :=
  match refS with
  | none => .error .engineUB
  | some r =>
    if root_is_object r then v.scalar_map_value
    else if v.isnumeric then v.array_value
    else v.cell_value

/-- The array-of-records → record-of-arrays transpose shared by the tails
of `load` and `load_multi`: one Nx1 column per field of the *first* record,
each column populated by `getfield` from every document in order; with no
field names the code falls through to the plain cell of documents.
(A non-record document would make the C++ raise inside the loop; the model
marks such a slot `errorValue` — unreachable, since the schema guard makes
every document an object root here.) -/
def transposeAssemble (docs : List Oct) : Except LoadError Oct :=
  match docs with
  | [] => .error .wrongTypeArg
  | c0 :: _ =>
    match c0 with
    | .record fs0 =>
      let field_names := fs0.map (fun f => f.1)
      if field_names.isEmpty then .ok (.cellArray docs)
      else
        .ok (.recordArray [docs.length, 1]
          (field_names.map fun fn => (fn, docs.map fun c => c.scalar_map_getfield fn)))
    | _ => .error .wrongTypeArg

/-- `octave_ndjson::load` (ndjson_load.cpp, sequential path): loop plus
final assembly. -/
def load (docs : List Json) (mode : ParseMode) : Except LoadError Oct := do
  let (vals, refS) ← loadLoop mode docs none []
  if vals.length = 1 then unwrapSingleDoc refS (vals.headD .errorValue)
  else if mode ≠ ParseMode.Relaxed then
    match refS with
    | none => .error .engineUB
    | some r =>
      if root_is_object r then transposeAssemble vals
      else .ok (.cellArray vals)
  else .ok (.cellArray vals)

/-- The schema check of `load_multi`'s worker lambda on the line at
remainder-index `remIdx` (0-based among the lines after the first): a
mismatch throws with document number `offset + i + 2`, i.e. the 1-based
line number of the offending line. -/
def lineCheck (refS : List Part) (mode : ParseMode) (remIdx : Nat) (d : Json) :
    Option LoadError :=
  if mode ≠ ParseMode.Relaxed then
    let schema := build_schema d
    if is_same refS schema (decide (mode = ParseMode.DynamicArray)) then none
    else some (.schemaMismatch refS schema (remIdx + 2))
  else none

/-- First failing line in line order.  In the concurrent code the first
failing worker claims the error slot by compare-and-set; on inputs with at
most one failing line — the ones the claims quantify over — every schedule
retains exactly this error. -/
def firstLineError (refS : List Part) (mode : ParseMode) :
    Nat → List Json → Option LoadError
  | _, [] => none
  | i, d :: rest =>
    match lineCheck refS mode i d with
    | some e => some e
    | none => firstLineError refS mode (i + 1) rest

/-- `octave_ndjson::load_multi` (ndjson_load.cpp): empty input yields
`NDArray{}`; one line falls back to `load`; otherwise the first line is
parsed up front as the schema reference, the remaining lines are checked
against it, and the tail performs the same assembly as `load` (the
`cell.numel() == 1` unwrap there is dead code — this branch has at least
two lines). -/
def load_multi (lines : List Json) (mode : ParseMode) : Except LoadError Oct :=
  match lines with
  | [] => .ok (.numArray dimVectorDefault [])
  | [d] => load [d] mode
  | d0 :: rest =>
    let reference_schema :=
      if mode ≠ ParseMode.Relaxed then build_schema d0 else []
    match firstLineError reference_schema mode 0 rest with
    | some e => .error e
    | none =>
      let cell := decode d0 :: rest.map decode
      if mode ≠ ParseMode.Relaxed ∧ root_is_object reference_schema then
        transposeAssemble cell
      else .ok (.cellArray cell)

/-! ## The round-robin worker pool (`multithreaded_parser.hpp`)

`MultithreadedParser` keeps one slot per worker: input buffer, outcome
("future", Empty = `std::monostate`), wake flag.  The wake-flag protocol —
the producer sets the flag only after writing the input, the worker clears
it only after publishing its outcome, and both `parse` and `drain` wait for
the flag before touching a slot — serializes every slot access, so the pool
is modelled by its synchronous slot semantics: a slot holds `none` (Empty)
or the published outcome of the job it was last handed. -/

section Pool

variable {α : Type}

structure PoolState (α : Type) where
  conc : Nat
  index : Nat
  futures : List (Option α)

def initPool (α : Type) (conc : Nat) : PoolState α :=
  ⟨conc, 0, List.replicate conc none⟩

/-- `MultithreadedParser::parse`: wait for the cursor slot, take the slot's
previous outcome (`std::exchange(m_futures[index], {})`), hand the slot its
new job, advance the round-robin cursor. -/
def poolParse (s : PoolState α) (o : α) : Option α × PoolState α :=
  (s.futures.getD s.index none,
   ⟨s.conc, (s.index + 1) % s.conc, s.futures.set s.index (some o)⟩)

/-- `MultithreadedParser::drain`: read the `N` slots round-robin starting
at the cursor, keeping the non-Empty outcomes. -/
def poolDrain (s : PoolState α) : List α :=
  ((List.range s.conc).map fun i => s.futures.getD ((s.index + i) % s.conc) none).filterMap id

/-- The driver's submission loop: submit every job in order, collecting
each `parse` call's return. -/
def submitAll (s : PoolState α) : List α → List (Option α) × PoolState α
  | [] => ([], s)
  | o :: os =>
    let (r, s1) := poolParse s o
    let (rs, s2) := submitAll s1 os
    (r :: rs, s2)

/-- Every outcome a driver observes from a fresh pool of `conc` workers:
the non-Empty `parse` returns, then the `drain`. -/
def collectAll (conc : Nat) (os : List α) : List α :=
  let (rs, s) := submitAll (initPool α conc) os
  rs.filterMap id ++ poolDrain s

end Pool

/-! ## `util::StringSplitter` (util.hpp)

`splitterNext` models `StringSplitter::next` and additionally returns the
list of string indices read by the delimiter-skipping loop
`while (m_idx <= m_str.size() and m_str[m_idx] == m_delim) ++m_idx;`  —
each condition evaluation with `m_idx <= size` dereferences
`m_str[m_idx]`.  Index `size` is past the end of the view; the model
records that access and treats the out-of-range character as a
non-delimiter (in the deployed code that byte is simdjson padding). -/

def skipDelims (s : List Char) (delim : Char) (idx : Nat) : Nat × List Nat :=
  if _h : idx ≤ s.length then
    match s[idx]? with
    | some c =>
      if c = delim then
        let (j, acc) := skipDelims s delim (idx + 1)
        (j, idx :: acc)
      else (idx, [idx])
    | none => (idx, [idx])
  else (idx, [])
termination_by s.length + 1 - idx
decreasing_by omega

/-- `StringSplitter::next` on state `(s, delim, m_idx)`: the split piece (or
`none` at the end), the new `m_idx`, and the indices the skip loop read. -/
def splitterNext (s : List Char) (delim : Char) (idx : Nat) :
    Option (List Char) × Nat × List Nat :=
  if s.length ≤ idx then (none, idx, [])
  else
    let (i1, acc) := skipDelims s delim idx
    match (s.drop i1).findIdx? (fun c => decide (c = delim)) with
    | none => (some (s.drop i1), s.length, acc)
    | some j => (some ((s.drop i1).take j), i1 + j + 1, acc)

/-! ## Proof-side auxiliary definitions -/

/-- Net `obj_count` contribution of a part run. -/
def ocNet (l : List Part) : Int := (l.map fun p => (partDelta p).1).sum

/-- Net `arr_count` contribution of a part run. -/
def acNet (l : List Part) : Int := (l.map fun p => (partDelta p).2).sum

/-- A part run is balanced when every prefix has nonnegative combined
nesting depth and the net depths are zero — the shape of every
`build_schema` output and of every whole-value token run inside one. -/
def balancedParts (l : List Part) : Bool :=
  (l.inits.all fun p => decide (0 ≤ ocNet p + acNet p))
    && decide (ocNet l = 0) && decide (acNet l = 0)

/-- Scalar (non-container) JSON elements. -/
def isScalarJson (j : Json) : Bool :=
  match j with
  | .arr _ => false
  | .obj _ => false
  | _ => true

/-- The schema scalar kind a scalar element fingerprints to. -/
def scalarKindOf (j : Json) : SKind :=
  match j with
  | .str _ => .string
  | .bool _ => .bool
  | .null => .null
  | _ => .number

mutual

/-- No integer-typed octave value (`intScalar`) occurs anywhere inside. -/
def noIntVal : Oct → Bool
  | .intScalar _ => false
  | .cellArray cs => noIntList cs
  | .record fs => noIntFields fs
  | .recordArray _ fs => noIntCols fs
  | _ => true

def noIntList : List Oct → Bool
  | [] => true
  | c :: cs => noIntVal c && noIntList cs

def noIntFields : List (String × Oct) → Bool
  | [] => true
  | (_, v) :: fs => noIntVal v && noIntFields fs

def noIntCols : List (String × List Oct) → Bool
  | [] => true
  | (_, vs) :: fs => noIntList vs && noIntCols fs

end

/-- The pool's slot array read in round-robin order from the cursor: the
queue of outcomes the drivers observe.  `poolDrain s` is exactly
`(qState s).filterMap id`. -/
def qState (s : PoolState α) : List (Option α) :=
  (List.range s.conc).map fun i => s.futures.getD ((s.index + i) % s.conc) none

/-- The pool's structural invariant: one future slot per worker and a
cursor inside range. -/
def PoolInv (s : PoolState α) : Prop :=
  s.futures.length = s.conc ∧ s.index < s.conc

/-! # Theorems -/

/-! ## Generic evaluation lemmas -/

theorem decodeElems_eq_map (l : List Json) : decodeElems l = l.map decode := by
  induction l with
  | nil => simp [decodeElems]
  | cons e rest ih => simp [decodeElems, ih]

theorem decodeNumericElems_eq_map (l : List Json) :
    decodeNumericElems l
      = l.map fun e => if e.is_null then none else (decode e).double_value := by
  induction l with
  | nil => simp [decodeNumericElems]
  | cons e rest ih => simp [decodeNumericElems, ih]

theorem skipLoop_length_le :
    ∀ (s : List Part) (oc ac : Int), (skipLoop s oc ac).length ≤ s.length - 1 := by
  intro s
  induction s with
  | nil => intro oc ac; simp [skipLoop]
  | cons x s ih =>
    intro oc ac
    simp only [skipLoop, List.length_cons]
    split
    · exact le_trans (ih _ _) (by omega)
    · omega

theorem isSameDyn_refl_bounded :
    ∀ (n : Nat) (s : List Part), s.length ≤ n → isSameDyn s s = true := by
  intro n
  induction n with
  | zero =>
    intro s hs
    have : s = [] := List.length_eq_zero.mp (Nat.le_zero.mp hs)
    subst this
    simp [isSameDyn]
  | succ n ih =>
    intro s hs
    match s with
    | [] => simp [isSameDyn]
    | x :: xs =>
      have hlt : (if x = Part.arrayBegin then (skipLoop (x :: xs) 0 1).tail else xs).length ≤ n := by
        have h1 := skipLoop_length_le (x :: xs) 0 1
        have h2 := List.length_tail (skipLoop (x :: xs) 0 1)
        simp only [List.length_cons] at h1 hs
        split <;> omega
      rw [isSameDyn, if_neg (fun h => h rfl)]
      exact ih _ hlt

theorem isSameDyn_refl (s : List Part) : isSameDyn s s = true :=
  isSameDyn_refl_bounded s.length s le_rfl

theorem is_same_refl (s : List Part) (dyn : Bool) : is_same s s dyn = true := by
  cases dyn <;> simp [is_same, isSameDyn_refl]

/-! ## C5 -/

/-- C5: decoding a JSON null yields the designated missing sentinel —
`NDArray{}` (an empty double array) in the DOM decoder, Octave's `NA` in
the ondemand decoder — and as an object member the sentinel sits inside a
present field, a value distinguishable from the field being absent
(lookup yields the sentinel rather than the undefined value). -/
theorem c5_null_missing_sentinel :
    decode Json.null = Oct.numArray dimVectorDefault [] ∧
    (parse_json_value Json.null []).1 = Oct.naScalar ∧
    decode (Json.obj [("a", Json.null)])
      = Oct.record [("a", Oct.numArray dimVectorDefault [])] ∧
    getfieldD [("a", Oct.numArray dimVectorDefault [])] "a"
      = Oct.numArray dimVectorDefault [] ∧
    decode (Json.obj []) = Oct.record [] ∧
    getfieldD ([] : List (String × Oct)) "a" = Oct.undefined ∧
    Oct.numArray dimVectorDefault [] ≠ Oct.undefined := by
  refine ⟨by simp [decode], by simp [parse_json_value], ?_, ?_, ?_, ?_, ?_⟩
  · simp [decode, decode_object, decodeObjectFields, assignField]
  · rfl
  · simp [decode, decode_object, decodeObjectFields]
  · rfl
  · simp

/-! ## C1 -/

/-- C1: on `{"a":1}\n{"a":2,"b":3}` under Strict mode both load paths abort
with a schema-mismatch error, but the sequential `load` embeds
`docs.size() = 1` — the count of already-accepted documents, i.e. the
0-based index of the offender — as the document number in the message,
while `load_multi` embeds 2, the 1-based line number the claim requires. -/
theorem c1_mismatch_document_number :
    load [Json.obj [("a", Json.int64 1)],
          Json.obj [("a", Json.int64 2), ("b", Json.int64 3)]] ParseMode.Strict
      = .error (.schemaMismatch
          [Part.objectBegin, Part.key "a", Part.scalar .number, Part.objectEnd]
          [Part.objectBegin, Part.key "a", Part.scalar .number, Part.key "b",
            Part.scalar .number, Part.objectEnd] 1) ∧
    load_multi [Json.obj [("a", Json.int64 1)],
          Json.obj [("a", Json.int64 2), ("b", Json.int64 3)]] ParseMode.Strict
      = .error (.schemaMismatch
          [Part.objectBegin, Part.key "a", Part.scalar .number, Part.objectEnd]
          [Part.objectBegin, Part.key "a", Part.scalar .number, Part.key "b",
            Part.scalar .number, Part.objectEnd] 2) := by
  constructor
  · simp [load, loadLoop, build_schema, buildSchemaFields, is_same, Bind.bind, Except.bind]
  · simp [load_multi, firstLineError, lineCheck, build_schema, buildSchemaFields, is_same,
      Bind.bind, Except.bind]

/-! ## Net-count lemmas and the skip-loop characterization -/

theorem ocNet_nil : ocNet [] = 0 := rfl

theorem acNet_nil : acNet [] = 0 := rfl

theorem ocNet_cons (p : Part) (l : List Part) :
    ocNet (p :: l) = (partDelta p).1 + ocNet l := by simp [ocNet]

theorem acNet_cons (p : Part) (l : List Part) :
    acNet (p :: l) = (partDelta p).2 + acNet l := by simp [acNet]

/-- Characterization of the `is_same` skip loop over a run `u` that keeps
the counters positive, followed by the part `w` that zeroes them: the loop
stops exactly on `w`. -/
theorem skipLoop_run :
    ∀ (u : List Part) (w : Part) (rest : List Part) (oc ac : Int) (x : Part),
      (∀ p, p <+: u → p ≠ [] → (0 < oc + ocNet p ∨ 0 < ac + acNet p)) →
      ¬(0 < oc + ocNet u + (partDelta w).1) →
      ¬(0 < ac + acNet u + (partDelta w).2) →
      skipLoop (x :: (u ++ w :: rest)) oc ac = w :: rest := by
  intro u
  induction u with
  | nil =>
    intro w rest oc ac x _hmid hend1 hend2
    simp only [ocNet, acNet, List.map_nil, List.sum_nil, Int.add_zero, add_zero] at hend1 hend2
    simp only [List.nil_append, skipLoop, List.isEmpty_cons]
    rw [if_neg]
    simp only [Bool.and_eq_true, Bool.or_eq_true, decide_eq_true_eq, Bool.not_false]
    rintro ⟨h | h, -⟩
    · exact hend1 h
    · exact hend2 h
  | cons v u' ih =>
    intro w rest oc ac x hmid hend1 hend2
    have hfirst : 0 < oc + (partDelta v).1 ∨ 0 < ac + (partDelta v).2 := by
      have := hmid [v] (by simp) (by simp)
      simpa [ocNet_cons, acNet_cons, ocNet_nil, acNet_nil] using this
    simp only [List.cons_append, skipLoop]
    rw [if_pos]
    · exact ih w rest _ _ v
        (fun p hp hne => by
          have := hmid (v :: p) (by simpa using hp) (by simp)
          simpa [ocNet_cons, acNet_cons, add_assoc] using this)
        (by simpa [ocNet_cons, add_assoc] using hend1)
        (by simpa [acNet_cons, add_assoc] using hend2)
    · simp only [Bool.and_eq_true, Bool.or_eq_true, decide_eq_true_eq]
      constructor
      · exact hfirst.imp id id
      · simp

theorem balancedParts_spec (u : List Part) (h : balancedParts u = true) :
    (∀ p, p <+: u → 0 ≤ ocNet p + acNet p) ∧ ocNet u = 0 ∧ acNet u = 0 := by
  simp only [balancedParts, Bool.and_eq_true, List.all_eq_true, decide_eq_true_eq] at h
  obtain ⟨⟨h1, h2⟩, h3⟩ := h
  exact ⟨fun p hp => h1 p ((List.mem_inits _ _).mpr hp), h2, h3⟩

/-- When both cursors stand on `Array::Begin` heading balanced subtrees,
`isSameDyn` skips both whole subtrees — whatever their lengths, element
kinds or nesting — and continues right after the matching `Array::End`s. -/
theorem isSameDyn_array_wildcard (u1 u2 r1 r2 : List Part)
    (h1 : balancedParts u1 = true) (h2 : balancedParts u2 = true) :
    isSameDyn (Part.arrayBegin :: (u1 ++ Part.arrayEnd :: r1))
              (Part.arrayBegin :: (u2 ++ Part.arrayEnd :: r2))
      = isSameDyn r1 r2 := by
  obtain ⟨hp1, hoc1, hac1⟩ := balancedParts_spec u1 h1
  obtain ⟨hp2, hoc2, hac2⟩ := balancedParts_spec u2 h2
  have hskip : ∀ (u : List Part) (r : List Part),
      (∀ p, p <+: u → 0 ≤ ocNet p + acNet p) → ocNet u = 0 → acNet u = 0 →
      skipLoop (Part.arrayBegin :: (u ++ Part.arrayEnd :: r)) 0 1 = Part.arrayEnd :: r := by
    intro u r hp hoc hac
    apply skipLoop_run
    · intro p hpre _hne
      have := hp p hpre
      omega
    · simp [hoc, partDelta]
    · simp [hac, partDelta]
  rw [isSameDyn, if_neg (fun h => h rfl)]
  simp only [reduceIte, hskip u1 r1 hp1 hoc1 hac1, hskip u2 r2 hp2 hoc2 hac2, List.tail_cons]

/-! ## C2 -/

/-- C2: `Schema::is_same` under `dynamic_array = true` treats each whole
array subtree as a wildcard.  Concretely, the schemas of `{"a":[1,2]}` and
`{"a":[1,2,3,"x"]}` compare equal under dynamic-array mode and unequal
under strict mode; in general, cursors standing on `Array::Begin` skip
their balanced subtrees regardless of element count, element kinds or
nested shape, and the sequences match only when both cursors exhaust
simultaneously. -/
theorem c2_dynamic_array_wildcard :
    (is_same (build_schema (Json.obj [("a", Json.arr [Json.int64 1, Json.int64 2])]))
             (build_schema (Json.obj [("a", Json.arr
                [Json.int64 1, Json.int64 2, Json.int64 3, Json.str "x"])])) true = true ∧
     is_same (build_schema (Json.obj [("a", Json.arr [Json.int64 1, Json.int64 2])]))
             (build_schema (Json.obj [("a", Json.arr
                [Json.int64 1, Json.int64 2, Json.int64 3, Json.str "x"])])) false = false) ∧
    (∀ u1 u2 r1 r2 : List Part, balancedParts u1 = true → balancedParts u2 = true →
       isSameDyn (Part.arrayBegin :: (u1 ++ Part.arrayEnd :: r1))
                 (Part.arrayBegin :: (u2 ++ Part.arrayEnd :: r2)) = isSameDyn r1 r2) ∧
    (isSameDyn [] [] = true ∧
     (∀ (x : Part) (xs : List Part), isSameDyn (x :: xs) [] = false) ∧
     (∀ (y : Part) (ys : List Part), isSameDyn [] (y :: ys) = false)) := by
  refine ⟨⟨?_, ?_⟩, isSameDyn_array_wildcard, ?_, fun x xs => ?_, fun y ys => ?_⟩
  · simp [is_same, isSameDyn, skipLoop, build_schema, buildSchemaFields, buildSchemaList,
      partDelta]
  · simp [is_same, build_schema, buildSchemaFields, buildSchemaList]
  · simp [isSameDyn]
  · simp [isSameDyn]
  · simp [isSameDyn]

/-- Witness for C2: the wildcard equation applied to the subtrees
`[<number>]` and `[]` with empty continuations. -/
theorem c2_dynamic_array_wildcard_witness :
    isSameDyn (Part.arrayBegin :: ([Part.scalar .number] ++ Part.arrayEnd :: []))
              (Part.arrayBegin :: (([] : List Part) ++ Part.arrayEnd :: []))
      = isSameDyn [] [] :=
  c2_dynamic_array_wildcard.2.1 [Part.scalar .number] [] [] [] (by decide) (by decide)

/-! ## C3 -/

theorem build_schema_scalar (v : Json) (h : isScalarJson v = true) :
    build_schema v = [Part.scalar (scalarKindOf v)] := by
  cases v <;> simp_all [build_schema, isScalarJson, scalarKindOf]

/-- C3: object key order outside arrays is part of the schema fingerprint
in both comparison modes: for any two distinct keys and scalar member
values, the schemas of the two field orders compare unequal under strict
mode and under dynamic-array mode (only array contents are wildcarded). -/
theorem c3_key_order_sensitive (ka kb : String) (hk : ka ≠ kb)
    (va vb : Json) (ha : isScalarJson va = true) (hb : isScalarJson vb = true) :
    is_same (build_schema (Json.obj [(ka, va), (kb, vb)]))
            (build_schema (Json.obj [(kb, vb), (ka, va)])) false = false ∧
    is_same (build_schema (Json.obj [(ka, va), (kb, vb)]))
            (build_schema (Json.obj [(kb, vb), (ka, va)])) true = false := by
  have hva := build_schema_scalar va ha
  have hvb := build_schema_scalar vb hb
  have h1 : build_schema (Json.obj [(ka, va), (kb, vb)])
      = [Part.objectBegin, Part.key ka, Part.scalar (scalarKindOf va),
         Part.key kb, Part.scalar (scalarKindOf vb), Part.objectEnd] := by
    simp [build_schema, buildSchemaFields, hva, hvb]
  have h2 : build_schema (Json.obj [(kb, vb), (ka, va)])
      = [Part.objectBegin, Part.key kb, Part.scalar (scalarKindOf vb),
         Part.key ka, Part.scalar (scalarKindOf va), Part.objectEnd] := by
    simp [build_schema, buildSchemaFields, hva, hvb]
  rw [h1, h2]
  constructor
  · simp [is_same, hk]
  · simp [is_same, isSameDyn, hk]

/-- Witness for C3: the spec's own instance, `{"a":1,"b":2}` against
`{"b":2,"a":1}`. -/
theorem c3_key_order_sensitive_witness :
    is_same (build_schema (Json.obj [("a", Json.int64 1), ("b", Json.int64 2)]))
            (build_schema (Json.obj [("b", Json.int64 2), ("a", Json.int64 1)])) false = false ∧
    is_same (build_schema (Json.obj [("a", Json.int64 1), ("b", Json.int64 2)]))
            (build_schema (Json.obj [("b", Json.int64 2), ("a", Json.int64 1)])) true = false :=
  c3_key_order_sensitive "a" "b" (by decide) (Json.int64 1) (Json.int64 2) rfl rfl

/-! ## C7 -/

/-- C7: decoding `[1,2,3]` yields the dense numeric 3x1 column; in general
any nonempty array whose elements are all number-or-null decodes to the
dense numeric column in which each null element becomes the NaN sentinel
(`none`) and each number its double value; `[1,"x",3]` (mixed kinds /
strings) decodes to the heterogeneous cell of length 3 with element order
preserved. -/
theorem c7_numeric_and_mixed_arrays :
    decode (Json.arr [Json.int64 1, Json.int64 2, Json.int64 3])
      = Oct.numArray [3, 1] [some 1, some 2, some 3] ∧
    (∀ (a : List Json), a ≠ [] → (∀ e ∈ a, (e.is_number || e.is_null) = true) →
      decode (Json.arr a) = Oct.numArray [a.length, 1]
        (a.map fun e => if e.is_null then none else (decode e).double_value)) ∧
    decode (Json.arr [Json.int64 1, Json.str "x", Json.int64 3])
      = Oct.cellArray [Oct.numScalar (some 1), Oct.strScalar "x", Oct.numScalar (some 3)] := by
  refine ⟨?_, ?_, ?_⟩
  · simp [decode, decode_array, decode_numeric_array, decodeNumericElems,
      Json.is_number, Json.is_null, Json.jtype, doubleOfInt, roundNat53, Oct.double_value]
  · intro a ha hall
    have hne : a.isEmpty = false := by
      cases a with
      | nil => exact absurd rfl ha
      | cons x xs => simp
    have hnum : (a.all fun e => e.is_number || e.is_null) = true :=
      List.all_eq_true.mpr hall
    rw [decode, decode_array, if_neg (by simp [hne]), if_pos (by simp [hnum]),
      decode_numeric_array, decodeNumericElems_eq_map]
  · simp [decode, decode_array, decode_string_and_mixed_array, decodeElems,
      Json.is_number, Json.is_null, Json.jtype, doubleOfInt, roundNat53, decode_string]

/-- Witness for C7: the number-or-null column rule applied to `[null, 7]`
— the null element becomes the NaN sentinel. -/
theorem c7_numeric_and_mixed_arrays_witness :
    decode (Json.arr [Json.null, Json.int64 7]) = Oct.numArray [2, 1] [none, some 7] := by
  have h := c7_numeric_and_mixed_arrays.2.1 [Json.null, Json.int64 7] (by simp) (by decide)
  simpa [decode, Json.is_null, Oct.double_value, doubleOfInt, roundNat53] using h

/-! ## C4 -/

/-- C4 counterexample: two records over the same field-name *set* but with
the names in different orders.  The claim says such an array consolidates
into a record-array; the code compares the per-element field-name lists
with `std_list` equality, which is order-sensitive, so it falls back to
the heterogeneous cell of per-element records (not a struct). -/
theorem c4_order_insensitive_counterexample :
    decode (Json.arr [Json.obj [("a", Json.int64 1), ("b", Json.int64 2)],
                      Json.obj [("b", Json.int64 3), ("a", Json.int64 4)]])
      = Oct.cellArray
          [Oct.record [("a", Oct.numScalar (some 1)), ("b", Oct.numScalar (some 2))],
           Oct.record [("b", Oct.numScalar (some 3)), ("a", Oct.numScalar (some 4))]] ∧
    (decode (Json.arr [Json.obj [("a", Json.int64 1), ("b", Json.int64 2)],
                      Json.obj [("b", Json.int64 3), ("a", Json.int64 4)]])).isstruct
      = false := by
  have h : decode (Json.arr [Json.obj [("a", Json.int64 1), ("b", Json.int64 2)],
                      Json.obj [("b", Json.int64 3), ("a", Json.int64 4)]])
      = Oct.cellArray
          [Oct.record [("a", Oct.numScalar (some 1)), ("b", Oct.numScalar (some 2))],
           Oct.record [("b", Oct.numScalar (some 3)), ("a", Oct.numScalar (some 4))]] := by
    simp [decode, decode_array, decode_object_array, decodeElems, decode_object,
      decodeObjectFields, assignField, Json.is_number, Json.is_null, Json.jtype,
      Oct.fieldnames, doubleOfInt, roundNat53]
  exact ⟨h, by rw [h]; rfl⟩

/-- C4 (amended): an array of records consolidates into a record-array —
one column of length N per field, column order following the first
element's field order — exactly when the decoded elements' field-name
*sequences are identical including order*; otherwise (in particular for
equal field sets in different orders) it falls back to the heterogeneous
cell of per-element records.  `[{"a":1},{"a":2}]` yields the record-array
with the single column `a = [1,2]`; `[{"a":1},{"b":2}]` yields the cell of
two single-field records. -/
theorem c4_record_array_consolidation :
    (∀ (e0 : Json) (rest : List Json), (∀ e ∈ e0 :: rest, e.jtype = JType.OBJECT) →
      ((∀ e ∈ rest, (decode e).fieldnames = (decode e0).fieldnames) →
        decode (Json.arr (e0 :: rest))
          = Oct.recordArray [(e0 :: rest).length, 1]
              ((decode e0).fieldnames.map fun fn =>
                (fn, (e0 :: rest).map fun e => (decode e).scalar_map_getfield fn))) ∧
      ((¬ ∀ e ∈ rest, (decode e).fieldnames = (decode e0).fieldnames) →
        decode (Json.arr (e0 :: rest)) = Oct.cellArray ((e0 :: rest).map decode))) ∧
    decode (Json.arr [Json.obj [("a", Json.int64 1)], Json.obj [("a", Json.int64 2)]])
      = Oct.recordArray [2, 1] [("a", [Oct.numScalar (some 1), Oct.numScalar (some 2)])] ∧
    decode (Json.arr [Json.obj [("a", Json.int64 1)], Json.obj [("b", Json.int64 2)]])
      = Oct.cellArray [Oct.record [("a", Oct.numScalar (some 1))],
                       Oct.record [("b", Oct.numScalar (some 2))]] := by
  refine ⟨?_, ?_, ?_⟩
  · intro e0 rest hobj
    have h0 := hobj e0 (by simp)
    have hnum : ∀ e ∈ e0 :: rest, e.is_number = false ∧ e.is_null = false := by
      intro e he
      have := hobj e he
      cases e <;> simp_all [Json.jtype, Json.is_number, Json.is_null]
    have hisnum : ((e0 :: rest).all fun e => e.is_number || e.is_null) = false := by
      have := hnum e0 (by simp)
      simp [List.all_cons, this.1, this.2]
    have hsame : ((e0 :: rest).all fun e => decide (e.jtype = JType.OBJECT)) = true := by
      apply List.all_eq_true.mpr
      intro e he
      simp [hobj e he]
    have hdisp : decode (Json.arr (e0 :: rest)) = decode_object_array (e0 :: rest) := by
      rw [decode, decode_array]
      simp only [List.isEmpty_cons, List.headD_cons, h0, hisnum, hsame, Bool.not_true,
        Bool.false_or, Bool.false_eq_true, if_false, reduceIte]
      simp
    have hElems : decodeElems (e0 :: rest) = decode e0 :: rest.map decode := by
      rw [decodeElems_eq_map, List.map_cons]
    constructor
    · intro hfn
      have hSF : ((rest.map decode).all fun c => decide (c.fieldnames = (decode e0).fieldnames))
          = true := by
        apply List.all_eq_true.mpr
        intro c hc
        obtain ⟨e, he, rfl⟩ := List.mem_map.mp hc
        simp [hfn e he]
      rw [hdisp, decode_object_array, hElems]
      simp only [hSF, Bool.not_true, Bool.false_eq_true, if_false, List.length_cons,
        List.map_cons, List.map_map, reduceIte]
      simp [Function.comp]
    · intro hfn
      have hSF : ((rest.map decode).all fun c => decide (c.fieldnames = (decode e0).fieldnames))
          = false := by
        rw [Bool.eq_false_iff]
        intro hall
        apply hfn
        intro e he
        have := List.all_eq_true.mp hall (decode e) (List.mem_map_of_mem _ he)
        simpa using this
      rw [hdisp, decode_object_array, hElems]
      simp only [hSF, Bool.not_false, if_true, List.map_cons, reduceIte]
  · simp [decode, decode_array, decode_object_array, decodeElems, decode_object,
      decodeObjectFields, assignField, Json.is_number, Json.is_null, Json.jtype,
      Oct.fieldnames, Oct.scalar_map_getfield, getfieldD, doubleOfInt, roundNat53]
  · simp [decode, decode_array, decode_object_array, decodeElems, decode_object,
      decodeObjectFields, assignField, Json.is_number, Json.is_null, Json.jtype,
      Oct.fieldnames, doubleOfInt, roundNat53]

/-- Witness for C4: the order-sensitive consolidation rule applied to
`[{"a":1},{"a":2}]`. -/
theorem c4_record_array_consolidation_witness :
    decode (Json.arr [Json.obj [("a", Json.int64 1)], Json.obj [("a", Json.int64 2)]])
      = Oct.recordArray
          [([Json.obj [("a", Json.int64 2)]].length + 1 : Nat), 1]
          ((decode (Json.obj [("a", Json.int64 1)])).fieldnames.map fun fn =>
            (fn, [Json.obj [("a", Json.int64 1)], Json.obj [("a", Json.int64 2)]].map
              fun e => (decode e).scalar_map_getfield fn)) := by
  have h := (c4_record_array_consolidation.1
    (Json.obj [("a", Json.int64 1)]) [Json.obj [("a", Json.int64 2)]]
    (by decide)).1
    (by simp [decode, decode_object, decodeObjectFields, assignField, Oct.fieldnames])
  simpa using h

/-! ## C9 -/

theorem root_is_object_build (d : Json) :
    root_is_object (build_schema d) = true ↔ d.jtype = JType.OBJECT := by
  cases d <;> simp [build_schema, root_is_object, Json.jtype]

/-- C9 counterexample: the claim promises that any single well-formed
document, in every mode, unwraps to its native decoded shape without
error.  A single `true` document under Strict mode decodes to a bool
scalar, which is neither an object root nor `isnumeric`, so `load` calls
`cell_value()` on it and aborts with a wrong-type error; and under Relaxed
mode a single `{"a":1}` reaches `reference_schema->root_is_object()` with
the optional never engaged — undefined behavior. -/
theorem c9_single_document_counterexample :
    load [Json.bool true] ParseMode.Strict = .error LoadError.wrongTypeArg ∧
    load [Json.obj [("a", Json.int64 1)]] ParseMode.Relaxed = .error LoadError.engineUB := by
  constructor
  · simp [load, loadLoop, build_schema, is_same, Bind.bind, Except.bind, unwrapSingleDoc,
      root_is_object, decode, Oct.isnumeric, Oct.cell_value]
  · simp [load, loadLoop, Bind.bind, Except.bind, unwrapSingleDoc]

/-- C9 (amended): under Strict or DynamicArray mode, a single well-formed
document loads without error and unwraps directly: an object root comes
back as its record, a root whose decode is numeric comes back through
`array_value()` (which succeeds), and a root decoding to a cell comes back
as that heterogeneous list.  (Roots decoding to bool or char values abort
in `cell_value()`, and Relaxed mode dereferences a disengaged optional —
see the counterexample.) -/
theorem c9_single_document_unwrap (d : Json) (mode : ParseMode)
    (hm : mode ≠ ParseMode.Relaxed) :
    (∀ flds, d = Json.obj flds → load [d] mode = .ok (decode d)) ∧
    (d.jtype ≠ JType.OBJECT → (decode d).isnumeric = true →
      load [d] mode = (decode d).array_value ∧ ∃ w, (decode d).array_value = .ok w) ∧
    (d.jtype ≠ JType.OBJECT → (decode d).isnumeric = false →
      ∀ cs, decode d = Oct.cellArray cs → load [d] mode = .ok (Oct.cellArray cs)) := by
  have hloop : loadLoop mode [d] none []
      = .ok ([decode d], some (build_schema d)) := by
    rw [loadLoop, if_neg hm]
    simp only [Option.getD_none, is_same_refl, if_true, loadLoop, List.nil_append, reduceIte]
  have hload : load [d] mode = unwrapSingleDoc (some (build_schema d)) (decode d) := by
    simp [load, hloop, Bind.bind, Except.bind]
  refine ⟨?_, ?_, ?_⟩
  · rintro flds rfl
    rw [hload, unwrapSingleDoc]
    rw [if_pos ((root_is_object_build _).mpr (by simp [Json.jtype]))]
    simp [decode, decode_object, Oct.scalar_map_value]
  · intro hobj hnumv
    have hroot : root_is_object (build_schema d) = false := by
      rw [Bool.eq_false_iff]
      intro h
      exact hobj ((root_is_object_build d).mp h)
    constructor
    · rw [hload, unwrapSingleDoc, hroot]
      simp [hnumv]
    · match hd : decode d, hnumv with
      | .numScalar v, _ => exact ⟨_, rfl⟩
      | .naScalar, _ => exact ⟨_, rfl⟩
      | .intScalar v, _ => exact ⟨_, rfl⟩
      | .numArray dims data, _ => exact ⟨_, rfl⟩
  · intro hobj hnumv cs hcs
    have hroot : root_is_object (build_schema d) = false := by
      rw [Bool.eq_false_iff]
      intro h
      exact hobj ((root_is_object_build d).mp h)
    rw [hload, unwrapSingleDoc, hroot]
    simp [hcs, Oct.isnumeric, Oct.cell_value]

/-- Witness for C9: a single `{"a":1}` under Strict mode unwraps to its
record. -/
theorem c9_single_document_unwrap_witness :
    load [Json.obj [("a", Json.int64 1)]] ParseMode.Strict
      = .ok (Oct.record [("a", Oct.numScalar (some 1))]) := by
  have h := (c9_single_document_unwrap (Json.obj [("a", Json.int64 1)]) ParseMode.Strict
    (by decide)).1 [("a", Json.int64 1)] rfl
  simpa [decode, decode_object, decodeObjectFields, assignField, doubleOfInt, roundNat53] using h

/-! ## C6: pool lemmas -/

section PoolProofs

variable {α : Type}

theorem qState_length (s : PoolState α) : (qState s).length = s.conc := by
  simp [qState]

theorem qState_getElem (s : PoolState α) (k : Nat) (hk : k < (qState s).length) :
    (qState s)[k] = s.futures.getD ((s.index + k) % s.conc) none := by
  simp [qState]

theorem qState_poolParse (s : PoolState α) (o : α) (h : PoolInv s) :
    qState (poolParse s o).2 = (qState s).tail ++ [some o] := by
  obtain ⟨h1, h2⟩ := h
  have hc : 0 < s.conc := by omega
  have hlen1 : (qState (poolParse s o).2).length = s.conc := by
    simp [qState_length, poolParse]
  have hlen2 : ((qState s).tail ++ [some o]).length = s.conc := by
    simp [List.length_tail, qState_length]
    omega
  apply List.ext_getElem (by rw [hlen1, hlen2])
  intro k hk1 hk2
  have hkc : k < s.conc := by rw [hlen1] at hk1; exact hk1
  have hL : (qState (poolParse s o).2)[k]
      = (s.futures.set s.index (some o)).getD ((s.index + 1 + k) % s.conc) none := by
    rw [qState_getElem _ k (by simpa [qState_length, poolParse] using hkc)]
    simp only [poolParse]
    rw [Nat.mod_add_mod]
  by_cases hlast : k = s.conc - 1
  · have hidx : (s.index + 1 + k) % s.conc = s.index := by
      subst hlast
      have he : s.index + 1 + (s.conc - 1) = s.index + s.conc := by omega
      rw [he, Nat.add_mod_right, Nat.mod_eq_of_lt h2]
    have hset : (s.futures.set s.index (some o)).getD s.index none = some o := by
      rw [List.getD_eq_getElem?_getD, List.getElem?_set_self (by omega)]
      simp
    have hR : ((qState s).tail ++ [some o])[k] = some o := by
      rw [List.getElem_append_right (by simp [List.length_tail, qState_length]; omega)]
      simp
    rw [hL, hidx, hset, hR]
  · have hne : (s.index + 1 + k) % s.conc ≠ s.index := by
      have hcase : (s.index + 1 + k) % s.conc = s.index + 1 + k ∧ s.index + 1 + k < s.conc ∨
          (s.index + 1 + k) % s.conc = s.index + 1 + k - s.conc ∧ s.conc ≤ s.index + 1 + k := by
        rcases Nat.lt_or_ge (s.index + 1 + k) s.conc with hlt | hge
        · exact Or.inl ⟨Nat.mod_eq_of_lt hlt, hlt⟩
        · refine Or.inr ⟨?_, hge⟩
          rw [Nat.mod_eq_sub_mod hge]
          exact Nat.mod_eq_of_lt (by omega)
      rcases hcase with ⟨hq, hr⟩ | ⟨hq, hr⟩ <;> rw [hq] <;> omega
    have hset : (s.futures.set s.index (some o)).getD ((s.index + 1 + k) % s.conc) none
        = s.futures.getD ((s.index + 1 + k) % s.conc) none := by
      rw [List.getD_eq_getElem?_getD, List.getD_eq_getElem?_getD,
        List.getElem?_set_ne (fun heq => hne heq.symm)]
    have hktail : k < ((qState s).tail).length := by
      simp [List.length_tail, qState_length]
      omega
    have hR : ((qState s).tail ++ [some o])[k]
        = s.futures.getD ((s.index + 1 + k) % s.conc) none := by
      rw [List.getElem_append_left hktail]
      rw [List.getElem_tail]
      rw [qState_getElem _ (k + 1) (by rw [qState_length]; omega)]
      congr 2
      omega
    rw [hL, hset, hR]

theorem poolParse_fst (s : PoolState α) (o : α) (h : PoolInv s) :
    (poolParse s o).1 = (qState s).getD 0 none := by
  obtain ⟨h1, h2⟩ := h
  have hc : 0 < s.conc := by omega
  have hc0 : 0 < (qState s).length := by rw [qState_length]; omega
  rw [List.getD_eq_getElem?_getD, List.getElem?_eq_getElem hc0]
  simp [qState_getElem s 0 hc0, Nat.mod_eq_of_lt h2, poolParse]

theorem poolParse_inv (s : PoolState α) (o : α) (h : PoolInv s) :
    PoolInv (poolParse s o).2 := by
  obtain ⟨h1, h2⟩ := h
  refine ⟨by simp [poolParse, h1], ?_⟩
  simp only [poolParse]
  exact Nat.mod_lt _ (by omega)

theorem poolDrain_eq (s : PoolState α) : poolDrain s = (qState s).filterMap id := rfl

theorem submitAll_collect :
    ∀ (os : List α) (s : PoolState α), PoolInv s →
      (submitAll s os).1.filterMap id ++ poolDrain (submitAll s os).2
        = (qState s).filterMap id ++ os := by
  intro os
  induction os with
  | nil => intro s h; simp [submitAll, poolDrain_eq]
  | cons o os ih =>
    intro s h
    have hnil : qState s ≠ [] := by
      have := qState_length s
      intro hq
      rw [hq] at this
      simp at this
      obtain ⟨_, h2⟩ := h
      omega
    obtain ⟨q0, qt, hq⟩ : ∃ q0 qt, qState s = q0 :: qt := by
      cases hqs : qState s with
      | nil => exact absurd hqs hnil
      | cons a b => exact ⟨a, b, rfl⟩
    simp only [submitAll]
    have hr : (poolParse s o).1 = q0 := by
      rw [poolParse_fst s o h, hq]
      rfl
    have hstep := qState_poolParse s o h
    rw [hq] at hstep
    simp only [List.tail_cons] at hstep
    have hIH := ih (poolParse s o).2 (poolParse_inv s o h)
    rw [hstep] at hIH
    simp only [List.filterMap_cons, hr]
    cases q0 with
    | none =>
      simp only [id]
      rw [hIH, hq]
      simp [List.filterMap_append]
    | some v =>
      simp only [id]
      rw [List.cons_append, hIH, hq]
      simp [List.filterMap_append]

theorem qState_initPool (conc : Nat) :
    qState (initPool α conc) = List.replicate conc none := by
  apply List.ext_getElem (by simp [qState_length, initPool])
  intro k h1 h2
  have hk : k < conc := by simpa [qState_length, initPool] using h1
  rw [qState_getElem (initPool α conc) k (by rw [qState_length]; simpa [initPool] using hk)]
  simp only [initPool]
  rw [List.getD_eq_getElem?_getD]
  rcases Nat.lt_or_ge ((0 + k) % conc) conc with hlt | hge
  · rw [List.getElem?_eq_getElem (by simpa using hlt)]
    simp
  · rw [List.getElem?_eq_none (by simpa using hge)]
    simp

theorem initPool_inv (conc : Nat) (h : 1 ≤ conc) : PoolInv (initPool α conc) := by
  constructor <;> simp [initPool]
  omega

theorem collectAll_eq (conc : Nat) (h : 1 ≤ conc) (os : List α) :
    collectAll conc os = os := by
  have := submitAll_collect os (initPool α conc) (initPool_inv conc h)
  simp only [collectAll]
  rw [this, qState_initPool]
  simp

theorem submitAll_shape :
    ∀ (os : List α) (s : PoolState α) (m : Nat) (p : List α), PoolInv s →
      qState s = List.replicate m none ++ p.map some →
      (submitAll s os).1 = List.replicate (min m os.length) none
        ++ ((p ++ os).take (os.length - m)).map some := by
  intro os
  induction os with
  | nil =>
    intro s m p _h _hq
    simp [submitAll]
  | cons o os ih =>
    intro s m p h hq
    have hinv2 := poolParse_inv s o h
    have hstep := qState_poolParse s o h
    have hr := poolParse_fst s o h
    simp only [submitAll]
    cases m with
    | zero =>
      simp only [List.replicate, List.nil_append] at hq
      have hpne : p ≠ [] := by
        intro hp
        have hlen := qState_length s
        rw [hq, hp] at hlen
        simp at hlen
        obtain ⟨_, h2⟩ := h
        omega
      obtain ⟨ph, pt, rfl⟩ : ∃ ph pt, p = ph :: pt := by
        cases p with
        | nil => exact absurd rfl hpne
        | cons a b => exact ⟨a, b, rfl⟩
      have hr2 : (poolParse s o).1 = some ph := by
        rw [hr, hq]
        rfl
      have hq2 : qState (poolParse s o).2 = (pt ++ [o]).map some := by
        rw [hstep, hq]
        simp
      have hIH := ih (poolParse s o).2 0 (pt ++ [o]) hinv2 (by simpa using hq2)
      rw [hIH, hr2]
      simp [List.take_succ_cons]
    | succ m' =>
      have hq' : qState s = none :: (List.replicate m' none ++ p.map some) := by
        rw [hq]
        simp [List.replicate_succ]
      have hr2 : (poolParse s o).1 = none := by
        rw [hr, hq']
        rfl
      have hq2 : qState (poolParse s o).2
          = List.replicate m' none ++ ((p ++ [o]).map some) := by
        rw [hstep, hq']
        simp
      have hIH := ih (poolParse s o).2 m' (p ++ [o]) hinv2 hq2
      rw [hIH, hr2]
      have hmin : min (m' + 1) (os.length + 1) = min m' os.length + 1 := by omega
      simp only [List.length_cons, hmin, List.replicate_succ, Nat.succ_sub_succ]
      simp [List.append_assoc]

/-- C6: the round-robin pool's one-step-behind pipelining contract.  For a
fresh pool of `conc ≥ 1` workers and any job list: collecting the
non-Empty `parse` returns followed by `drain` reproduces the job outcomes
exactly in submission order, and the `parse` returns themselves are Empty
for the first `min conc K` calls and from call `conc + 1` on are the
outcome of the job submitted `conc` calls earlier. -/
theorem c6_pool_ordering {β : Type} (conc : Nat) (hc : 1 ≤ conc) (os : List β) :
    collectAll conc os = os ∧
    (submitAll (initPool β conc) os).1
      = List.replicate (min conc os.length) none
        ++ (os.take (os.length - conc)).map some := by
  constructor
  · exact collectAll_eq conc hc os
  · have h := submitAll_shape os (initPool β conc) conc []
      (initPool_inv conc hc) (by rw [qState_initPool]; simp)
    simpa using h

/-- Witness for C6: two workers, three jobs — the first two `parse` calls
return Empty, the third returns job 1, and the drain returns jobs 2 and 3. -/
theorem c6_pool_ordering_witness :
    collectAll 2 [10, 20, 30] = ([10, 20, 30] : List Nat) ∧
    (submitAll (initPool Nat 2) [10, 20, 30]).1 = [none, none, some 10] :=
  ⟨(c6_pool_ordering 2 (by decide) [10, 20, 30]).1, by
    have h := (c6_pool_ordering 2 (by decide) ([10, 20, 30] : List Nat)).2
    simpa using h⟩

end PoolProofs


/-! ## C8: no integer-typed outputs, numbers as 64-bit floats -/

theorem noIntList_iff (cs : List Oct) :
    noIntList cs = true ↔ ∀ c ∈ cs, noIntVal c = true := by
  induction cs with
  | nil => simp [noIntList]
  | cons c cs ih => simp [noIntList, Bool.and_eq_true, ih]

theorem noIntFields_iff (fs : List (String × Oct)) :
    noIntFields fs = true ↔ ∀ p ∈ fs, noIntVal p.2 = true := by
  induction fs with
  | nil => simp [noIntFields]
  | cons p fs ih =>
    obtain ⟨k, v⟩ := p
    simp [noIntFields, Bool.and_eq_true, ih]

theorem noIntCols_iff (fs : List (String × List Oct)) :
    noIntCols fs = true ↔ ∀ p ∈ fs, noIntList p.2 = true := by
  induction fs with
  | nil => simp [noIntCols]
  | cons p fs ih =>
    obtain ⟨k, vs⟩ := p
    simp [noIntCols, Bool.and_eq_true, ih]

theorem noIntFields_assign (acc : List (String × Oct)) (k : String) (v : Oct)
    (ha : noIntFields acc = true) (hv : noIntVal v = true) :
    noIntFields (assignField acc k v) = true := by
  induction acc with
  | nil => simp [assignField, noIntFields, hv]
  | cons p acc ih =>
    obtain ⟨k0, v0⟩ := p
    simp only [noIntFields, Bool.and_eq_true] at ha
    by_cases hk : k0 = k
    · simp [assignField, hk, noIntFields, hv, ha.2]
    · simp [assignField, hk, noIntFields, ha.1, ih ha.2]

theorem noInt_getfieldD (fs : List (String × Oct)) (k : String)
    (h : noIntFields fs = true) : noIntVal (getfieldD fs k) = true := by
  induction fs with
  | nil => simp [getfieldD, noIntVal]
  | cons p fs ih =>
    obtain ⟨k0, v0⟩ := p
    simp only [noIntFields, Bool.and_eq_true] at h
    by_cases hk : k0 = k
    · simp [getfieldD, List.lookup, hk, h.1]
    · have hbeq : (k == k0) = false := by
        simp [beq_eq_false_iff_ne]
        exact fun he => hk he.symm
      simpa [getfieldD, List.lookup, hbeq] using ih h.2

theorem noInt_smgetfield (c : Oct) (fn : String) (h : noIntVal c = true) :
    noIntVal (c.scalar_map_getfield fn) = true := by
  cases c <;> simp_all [Oct.scalar_map_getfield, noIntVal]
  exact noInt_getfieldD _ _ (by assumption)

theorem noInt_colsLookup (fs : List (String × List Oct)) (fn : String)
    (h : noIntCols fs = true) : noIntList ((fs.lookup fn).getD []) = true := by
  induction fs with
  | nil => simp [List.lookup, noIntList]
  | cons p fs ih =>
    obtain ⟨k0, vs0⟩ := p
    simp only [noIntCols, Bool.and_eq_true] at h
    by_cases hk : fn == k0
    · simp [List.lookup, hk, h.1]
    · simpa [List.lookup, hk] using ih h.2

theorem noInt_getfieldCol (c : Oct) (fn : String) (h : noIntVal c = true) :
    noIntList (c.getfieldCol fn) = true := by
  cases c with
  | record fs =>
    simp only [Oct.getfieldCol, noIntList, Bool.and_eq_true]
    exact ⟨noInt_getfieldD fs fn (by simpa [noIntVal] using h), trivial⟩
  | recordArray dims fs =>
    exact noInt_colsLookup fs fn (by simpa [noIntVal] using h)
  | _ => simp [Oct.getfieldCol, noIntList]

theorem noInt_listGetD (cs : List Oct) (i : Nat) (d : Oct)
    (h : ∀ c ∈ cs, noIntVal c = true) (hd : noIntVal d = true) :
    noIntVal (cs.getD i d) = true := by
  rw [List.getD_eq_getElem?_getD]
  cases hg : cs[i]? with
  | none => simpa using hd
  | some c =>
    have : c ∈ cs := List.getElem?_mem hg
    simpa using h c this

theorem noInt_aoa (a : List Json) (h : noIntList (decodeElems a) = true) :
    noIntVal (decode_array_of_arrays a) = true := by
  rw [decode_array_of_arrays]
  cases hc : decodeElems a with
  | nil => simp [noIntVal]
  | cons c0 cs =>
    rw [hc] at h
    have hmem : ∀ c ∈ c0 :: cs, noIntVal c = true := (noIntList_iff _).mp h
    simp only [hc]
    by_cases hS : c0.isstruct = true
    · simp only [hS, reduceIte, reduceDIte]
      split
      · simpa only [noIntVal] using h
      · simp only [noIntVal]
        rw [noIntCols_iff]
        intro p hp
        simp only [List.mem_map] at hp
        obtain ⟨f, _hf, rfl⟩ := hp
        rw [noIntList_iff]
        intro c hcm
        simp only [List.mem_map] at hcm
        obtain ⟨idx, _hidx, rfl⟩ := hcm
        apply noInt_listGetD
        · intro x hx
          exact (noIntList_iff _).mp
            (noInt_getfieldCol _ _ (noInt_listGetD (c0 :: cs) _ _ hmem (by simp [noIntVal]))) x hx
        · simp [noIntVal]
    · have hS2 : c0.isstruct = false := by simpa using hS
      simp only [hS2, Bool.false_eq_true, reduceIte, reduceDIte, Bool.false_and, Bool.or_false]
      split
      · simpa only [noIntVal] using h
      · split <;> simp [noIntVal]

theorem noInt_doa (a : List Json) (h : noIntList (decodeElems a) = true) :
    noIntVal (decode_object_array a) = true := by
  rw [decode_object_array]
  cases hc : decodeElems a with
  | nil => simp [noIntVal]
  | cons c0 cs =>
    rw [hc] at h
    have hmem : ∀ c ∈ c0 :: cs, noIntVal c = true := (noIntList_iff _).mp h
    simp only [hc]
    split
    · simpa only [noIntVal] using h
    · simp only [noIntVal]
      rw [noIntCols_iff]
      intro p hp
      simp only [List.mem_map] at hp
      obtain ⟨f, _hf, rfl⟩ := hp
      rw [noIntList_iff]
      intro c hcm
      simp only [List.mem_map] at hcm
      obtain ⟨x, hx, rfl⟩ := hcm
      exact noInt_smgetfield x f (hmem x hx)

theorem noInt_decode_all :
    (∀ (a : Json), noIntVal (decode a) = true) ∧
    (∀ (o : List (String × Json)), noIntVal (decode_object o) = true) ∧
    (∀ (a : List (String × Json)) (a_1 : List (String × Oct)),
      noIntFields a_1 = true → noIntFields (decodeObjectFields a a_1) = true) ∧
    (∀ (a : List Json), noIntVal (decode_array a) = true) ∧
    (∀ (a : List Json), noIntVal (decode_array_of_arrays a) = true) ∧
    (∀ (a : List Json), noIntList (decodeElems a) = true) ∧
    (∀ (a : List Json), noIntVal (decode_object_array a) = true) ∧
    (∀ (a : List Json), noIntVal (decode_string_and_mixed_array a) = true) ∧
    (∀ (a : List Json), noIntVal (decode_numeric_array a) = true) ∧
    (∀ (_a : List Json), True) := by
  refine decode.mutual_induct
    (fun d => noIntVal (decode d) = true)
    (fun o => noIntVal (decode_object o) = true)
    (fun fl acc => noIntFields acc = true → noIntFields (decodeObjectFields fl acc) = true)
    (fun a => noIntVal (decode_array a) = true)
    (fun a => noIntVal (decode_array_of_arrays a) = true)
    (fun a => noIntList (decodeElems a) = true)
    (fun a => noIntVal (decode_object_array a) = true)
    (fun a => noIntVal (decode_string_and_mixed_array a) = true)
    (fun a => noIntVal (decode_numeric_array a) = true)
    (fun _a => True)
    ?_ ?_ ?_ ?_ ?_ ?_ ?_ ?_ ?_ ?_ ?_ ?_ ?_ ?_ ?_ ?_ ?_ ?_ ?_ ?_ ?_ ?_ ?_ ?_ ?_ ?_ ?_ ?_ ?_ ?_ ?_ ?_
  -- decode: arr
  · intro a h
    simpa only [decode] using h
  -- decode: obj
  · intro o h
    simpa only [decode] using h
  -- decode: int64, uint64, double
  · intro v; simp [decode, noIntVal]
  · intro v; simp [decode, noIntVal]
  · intro v; simp [decode, noIntVal]
  -- decode: str
  · intro s; simp [decode, decode_string, noIntVal]
  -- decode: bool, null
  · intro b; simp [decode, noIntVal]
  · simp [decode, noIntVal]
  -- decode_object
  · intro o h
    simp only [decode_object, noIntVal]
    exact h (by simp [noIntFields])
  -- decodeObjectFields: nil
  · intro acc hacc
    simpa only [decodeObjectFields] using hacc
  -- decodeObjectFields: cons
  · intro k v rest acc h1 h2 hacc
    simp only [decodeObjectFields]
    exact h2 (noIntFields_assign acc k (decode v) hacc h1)
  -- decode_array: empty
  · intro a ha
    simp [decode_array, ha, noIntVal]
  -- decode_array: numeric
  · intro a hne xn hnum h9
    have hnum2 : (a.all fun e => e.is_number || e.is_null) = true := hnum
    rw [decode_array, if_neg hne]
    simp only [hnum2, reduceIte]
    exact h9
  -- decode_array: mixed/string
  · intro a hne lt xn st hnn hcond h8
    have hnn2 : ¬(a.all fun e => e.is_number || e.is_null) = true := hnn
    have hcond2 : (!(a.all fun e => decide (e.jtype = (a.headD Json.null).jtype))
        || decide ((a.headD Json.null).jtype = JType.STRING)) = true := hcond
    rw [decode_array, if_neg hne]
    simp only [if_neg hnn2, hcond2, reduceIte]
    exact h8
  -- decode_array: bool
  · intro a hne lt xn st hnn hcond hbool
    have hnn2 : ¬(a.all fun e => e.is_number || e.is_null) = true := hnn
    have hcond2 : ¬(!(a.all fun e => decide (e.jtype = (a.headD Json.null).jtype))
        || decide ((a.headD Json.null).jtype = JType.STRING)) = true := hcond
    have hbool2 : decide ((a.headD Json.null).jtype = JType.BOOL) = true := hbool
    rw [decode_array, if_neg hne]
    simp only [if_neg hnn2, if_neg hcond2, hbool2, reduceIte]
    simp [decode_boolean_array, noIntVal]
  -- decode_array: object
  · intro a hne lt xn st hnn hcond hbool hobjt h7
    have hnn2 : ¬(a.all fun e => e.is_number || e.is_null) = true := hnn
    have hcond2 : ¬(!(a.all fun e => decide (e.jtype = (a.headD Json.null).jtype))
        || decide ((a.headD Json.null).jtype = JType.STRING)) = true := hcond
    have hbool2 : ¬decide ((a.headD Json.null).jtype = JType.BOOL) = true := hbool
    have hobjt2 : decide ((a.headD Json.null).jtype = JType.OBJECT) = true := hobjt
    rw [decode_array, if_neg hne]
    simp only [if_neg hnn2, if_neg hcond2, if_neg hbool2, hobjt2, reduceIte]
    exact h7
  -- decode_array: array of arrays
  · intro a hne lt xn st hnn hcond hbool hobjt harrt h5
    have hnn2 : ¬(a.all fun e => e.is_number || e.is_null) = true := hnn
    have hcond2 : ¬(!(a.all fun e => decide (e.jtype = (a.headD Json.null).jtype))
        || decide ((a.headD Json.null).jtype = JType.STRING)) = true := hcond
    have hbool2 : ¬decide ((a.headD Json.null).jtype = JType.BOOL) = true := hbool
    have hobjt2 : ¬decide ((a.headD Json.null).jtype = JType.OBJECT) = true := hobjt
    have harrt2 : decide ((a.headD Json.null).jtype = JType.ARRAY) = true := harrt
    rw [decode_array, if_neg hne]
    simp only [if_neg hnn2, if_neg hcond2, if_neg hbool2, if_neg hobjt2, harrt2, reduceIte]
    exact h5
  -- decode_array: unreachable error branch
  · intro a hne lt xn st hnn hcond hbool hobjt harrt
    have hnn2 : ¬(a.all fun e => e.is_number || e.is_null) = true := hnn
    have hcond2 : ¬(!(a.all fun e => decide (e.jtype = (a.headD Json.null).jtype))
        || decide ((a.headD Json.null).jtype = JType.STRING)) = true := hcond
    have hbool2 : ¬decide ((a.headD Json.null).jtype = JType.BOOL) = true := hbool
    have hobjt2 : ¬decide ((a.headD Json.null).jtype = JType.OBJECT) = true := hobjt
    have harrt2 : ¬decide ((a.headD Json.null).jtype = JType.ARRAY) = true := harrt
    rw [decode_array, if_neg hne]
    simp only [if_neg hnn2, if_neg hcond2, if_neg hbool2, if_neg hobjt2, if_neg harrt2]
    simp [noIntVal]
  -- decode_array_of_arrays: empty cell
  · intro a hnil _h6
    simp [decode_array_of_arrays, hnil, noIntVal]
  -- decode_array_of_arrays: fallback cell
  · intro a c0 cs hcons cell ib istr sd fn hcond h6
    exact noInt_aoa a h6
  -- decode_array_of_arrays: struct branch
  · intro a c0 cs hcons cell ib istr sd fn hcond histr h6
    exact noInt_aoa a h6
  -- decode_array_of_arrays: bool branch
  · intro a c0 cs hcons cell ib istr sd fn hcond histr _hbool h6
    exact noInt_aoa a h6
  -- decode_array_of_arrays: numeric branch
  · intro a c0 cs hcons cell ib istr sd fn hcond histr _hbool h6
    exact noInt_aoa a h6
  -- decodeElems: nil
  · simp [decodeElems, noIntList]
  -- decodeElems: cons
  · intro e rest h1 hrest
    simp only [decodeElems, noIntList, Bool.and_eq_true]
    exact ⟨h1, hrest⟩
  -- decode_object_array: empty cell
  · intro a hnil _h6
    simp [decode_object_array, hnil, noIntVal]
  -- decode_object_array: cell fallback
  · intro a c0 cs hcons fn sfn hdiff h6
    exact noInt_doa a h6
  -- decode_object_array: record-array
  · intro a c0 cs hcons fn sfn hsame h6
    exact noInt_doa a h6
  -- decode_string_and_mixed_array
  · intro a h6
    simpa only [decode_string_and_mixed_array, noIntVal] using h6
  -- decode_numeric_array
  · intro a _h10
    simp [decode_numeric_array, noIntVal]
  -- decodeNumericElems: nil and cons
  · trivial
  · intro e rest _h1 _h10
    trivial

theorem noInt_parse_all :
    (∀ (a : Json) (s : List Part), noIntVal (parse_json_value a s).1 = true) ∧
    (∀ (a : List (String × Json)) (s : List Part) (acc : List (String × Oct)),
      noIntFields acc = true → noIntFields ((parseJsonFields a s acc).1) = true) ∧
    (∀ (a : List Json) (s : List Part), noIntList ((parseJsonElems a s).1) = true) := by
  refine parse_json_value.mutual_induct
    (fun d s => noIntVal (parse_json_value d s).1 = true)
    (fun o s acc => noIntFields acc = true → noIntFields ((parseJsonFields o s acc).1) = true)
    (fun a s => noIntList ((parseJsonElems a s).1) = true)
    ?_ ?_ ?_ ?_ ?_ ?_ ?_ ?_ ?_ ?_ ?_ ?_ ?_
  -- arr, all_number = true
  · intro a schema sch1 vals sch2 hpe _allnum _hall hIH
    have hpe2 : parseJsonElems a (schema ++ [Part.arrayBegin]) = (vals, sch2) := hpe
    have hIH2 : noIntList vals = true := by
      have h0 : noIntList ((parseJsonElems a (schema ++ [Part.arrayBegin])).1) = true := hIH
      rw [hpe2] at h0
      simpa using h0
    rw [parse_json_value.eq_def]
    simp only [hpe2]
    split <;> simp [noIntVal, hIH2]
  -- arr, all_number = false
  · intro a schema sch1 vals sch2 hpe _allnum _hall hIH
    have hpe2 : parseJsonElems a (schema ++ [Part.arrayBegin]) = (vals, sch2) := hpe
    have hIH2 : noIntList vals = true := by
      have h0 : noIntList ((parseJsonElems a (schema ++ [Part.arrayBegin])).1) = true := hIH
      rw [hpe2] at h0
      simpa using h0
    rw [parse_json_value.eq_def]
    simp only [hpe2]
    split <;> simp [noIntVal, hIH2]
  -- obj
  · intro o schema sch1 fields sch2 hpf hIH
    have hpf2 : parseJsonFields o (schema ++ [Part.objectBegin]) [] = (fields, sch2) := hpf
    have hIH2 : noIntFields fields = true := by
      have h0 : noIntFields ((parseJsonFields o (schema ++ [Part.objectBegin]) []).1) = true :=
        hIH (by simp [noIntFields])
      rw [hpf2] at h0
      simpa using h0
    rw [parse_json_value]
    simp only [hpf2]
    simpa [noIntVal] using hIH2
  -- str
  · intro v schema; simp [parse_json_value, noIntVal]
  -- int64
  · intro v schema; simp [parse_json_value, noIntVal]
  -- uint64
  · intro v schema; simp [parse_json_value, noIntVal]
  -- double
  · intro v schema; simp [parse_json_value, noIntVal]
  -- bool
  · intro b schema; simp [parse_json_value, noIntVal]
  -- null
  · intro schema; simp [parse_json_value, noIntVal]
  -- elems nil
  · intro schema; simp [parseJsonElems, noIntList]
  -- elems cons
  · intro e rest schema v schema1 hpv vals schema2 hpe h1 h2
    rw [hpv] at h1
    have h2b : noIntList vals = true := by
      have h0 : noIntList ((parseJsonElems rest schema1).1) = true := h2
      rw [hpe] at h0
      simpa using h0
    rw [parseJsonElems]
    simp only [hpv, hpe]
    simp only [noIntList, Bool.and_eq_true]
    exact ⟨by simpa using h1, h2b⟩
  -- fields nil
  · intro schema acc h
    simpa [parseJsonFields] using h
  -- fields cons
  · intro k v rest schema acc sch1 v1 sch2 hpv h1 h2 hacc
    have hpv2 : parse_json_value v (schema ++ [Part.key k]) = (v1, sch2) := hpv
    have h1b : noIntVal v1 = true := by
      have h0 : noIntVal ((parse_json_value v (schema ++ [Part.key k])).1) = true := h1
      rw [hpv2] at h0
      simpa using h0
    rw [parseJsonFields]
    simp only [hpv2]
    exact h2 (noIntFields_assign acc k v1 hacc h1b)

theorem log2_9007199254740993 : Nat.log2 9007199254740993 = 53 := by
  have h1 : 53 ≤ Nat.log2 9007199254740993 := (Nat.le_log2 (by norm_num)).mpr (by norm_num)
  have h2 : Nat.log2 9007199254740993 < 54 := (Nat.log2_lt (by norm_num)).mpr (by norm_num)
  omega

theorem roundNat53_9007199254740993 : roundNat53 9007199254740993 = 9007199254740992 := by
  unfold roundNat53
  rw [if_neg (by norm_num)]
  simp only [log2_9007199254740993]
  norm_num

theorem doubleOfInt_9007199254740993 :
    doubleOfInt 9007199254740993 = some ((9007199254740992 : ℚ)) := by
  unfold doubleOfInt
  rw [if_pos (by norm_num)]
  have ht : (9007199254740993 : Int).toNat = 9007199254740993 := by simp
  rw [ht, roundNat53_9007199254740993]
  norm_num

/-- C8: every JSON number — scalar at root, object member, or array element —
decodes to the 64-bit floating-point model (`numScalar`/`numArray` over
rationals), in both the DOM decoder and the streaming parser; integers beyond
`2 ^ 53` lose precision (`2 ^ 53 + 1` rounds to even, giving `2 ^ 53`); and no
integer-typed Octave value (`intScalar`) is ever produced anywhere in the
output. -/
theorem c8_number_decoding :
    (∀ d : Json, noIntVal (decode d) = true) ∧
    (∀ (d : Json) (s : List Part), noIntVal ((parse_json_value d s).1) = true) ∧
    (∀ v : Int, decode (.int64 v) = .numScalar (doubleOfInt v)) ∧
    (∀ n : Nat, decode (.uint64 n) = .numScalar (doubleOfNat n)) ∧
    (∀ q : ℚ, decode (.double q) = .numScalar (some q)) ∧
    (∀ (v : Int) (s : List Part),
      parse_json_value (.int64 v) s =
        (.numScalar (doubleOfInt v), s ++ [Part.scalar .number])) ∧
    (∀ (n : Nat) (s : List Part),
      parse_json_value (.uint64 n) s =
        (.numScalar (doubleOfNat n), s ++ [Part.scalar .number])) ∧
    decode (.int64 (2 ^ 53 + 1)) = .numScalar (some ((2 ^ 53 : ℚ))) ∧
    decode (.obj [("a", .int64 (2 ^ 53 + 1))]) =
      .record [("a", .numScalar (some ((2 ^ 53 : ℚ))))] ∧
    decode (.arr [.int64 (2 ^ 53 + 1), .int64 3]) =
      .numArray [2, 1] [some ((2 ^ 53 : ℚ)), some 3] := by
  have hlit : ((2 : Int) ^ 53 + 1) = 9007199254740993 := by norm_num
  have hlitq : ((2 : ℚ) ^ 53) = 9007199254740992 := by norm_num
  have h3 : doubleOfInt 3 = some ((3 : ℚ)) := by simp [doubleOfInt, roundNat53]
  refine ⟨noInt_decode_all.1, noInt_parse_all.1, ?_, ?_, ?_, ?_, ?_, ?_, ?_, ?_⟩
  · intro v; simp [decode]
  · intro n; simp [decode]
  · intro q; simp [decode]
  · intro v s; simp [parse_json_value]
  · intro n s; simp [parse_json_value]
  · rw [hlit]
    simp [decode, doubleOfInt_9007199254740993, hlitq]
  · rw [hlit]
    simp [decode, decode_object, decodeObjectFields, assignField,
      doubleOfInt_9007199254740993, hlitq]
  · rw [hlit]
    simp [decode, decode_array, decode_numeric_array, decodeNumericElems,
      Json.is_number, Json.is_null, Json.jtype, Oct.double_value,
      doubleOfInt_9007199254740993, h3, hlitq]

/-- C10: the delimiter-skip loop guard is `m_idx <= m_str.size()`, after which
`m_str[m_idx]` is dereferenced, so on an input ending in delimiter characters
the loop reads the index equal to the string length — the claim that only
indices strictly below the length are accessed fails.  On `"\n"` the skip
loop reads indices 0 and 1 while the length is 1; on `"a\n\n"` continued from
index 1 it reads 1, 2 and 3 with length 3.  The part of the claim about the
returned piece holds on the shown splits: the delimiter never occurs in a
returned piece. -/
theorem c10_skip_loop_reads_length_index :
    (skipDelims ['\n'] '\n' 0).2 = [0, 1] ∧
    List.length ['\n'] = 1 ∧
    splitterNext ['a', '\n', '\n'] '\n' 1 = (some [], 3, [1, 2, 3]) ∧
    List.length ['a', '\n', '\n'] = 3 ∧
    splitterNext ['x', '\n', 'y'] '\n' 0 = (some ['x'], 2, [0]) := by
  refine ⟨?_, rfl, ?_, rfl, ?_⟩
  · simp [skipDelims]
  · simp [splitterNext, skipDelims, List.findIdx?]
  · simp [splitterNext, skipDelims, List.findIdx?]

end octave_ndjson
